import Mathlib

/-!
Verification development for the `pattern_file_recognizer` library.

The library (src/pattern_file_recognizer/recognizer.py) builds a
multi-pattern keyword scanner from pattern files, filters the patterns by an
allowlist, and exposes an `analyze` adapter returning match spans.

The build pipeline (`__init__`, `_load_patterns`, `_load_allowlist`,
`_load_file`, `_load_txt`, `_load_csv`, allowlist filtering) and the
`analyze` adapter are embedded directly from the Python source.  File-system
access is modelled as an explicit environment
`FileSystem : String → Option (List Str)` mapping a path to its raw lines
(`none` = file does not exist); `_load_file`'s dispatch on the `.csv` path
suffix and `_load_csv`'s header/column handling (including the missing-column
`ValueError`) are embedded as well, with `csv.reader` modelled for quote-free
comma-separated content (no input here quotes fields).

The matching core is delegated by the source to the external `flashtext`
library (`KeywordProcessor`), whose code is not part of this repository, so
the scanner semantics (word boundaries, longest match per start position,
case folding) are modelled from the specification's matching policy; those
definitions carry a `Modelled from the spec:` doc comment.

Python strings are embedded as `List Char` (`Str`), so every operation the
source uses (`strip`, `startswith`, `lower`, equality, indexing) is an
executable Lean function on character lists; `Char.toLower` models Python's
`str.lower` and `trim` models `str.strip`, faithfully on the ASCII inputs
used throughout.  File paths, which the model only ever compares for
equality, stay Lean `String`s.
-/

namespace PatternFileRecognizer

/-! ### Python strings as character lists -/

/-- A Python string, embedded as its list of characters. -/
abbrev Str := List Char

/-- The whitespace characters Python's `str.strip` removes (ASCII range). -/
def isPySpace (c : Char) : Bool :=
  c == ' ' || c == '\t' || c == '\n' || c == '\r' || c == '\x0b' || c == '\x0c'

/-- Python `str.strip`: remove leading and trailing whitespace. -/
def trim (s : Str) : Str :=
  ((s.dropWhile isPySpace).reverse.dropWhile isPySpace).reverse

/-- Python `line.startswith("#")`. -/
def startsWithHash (s : Str) : Bool := "#".data.isPrefixOf s

/-- Python `str.lower` (ASCII case folding via `Char.toLower`). -/
def lowerStr (s : Str) : Str := s.map Char.toLower

/-! ### Scanner model (matching policy) -/

/-- Modelled from the spec: the word-character classification used for word
boundaries — alphanumeric or underscore.  (The flashtext automaton, absent
from this repository, uses the same default non-word-boundary set.) -/
def isWordChar (c : Char) : Bool := c.isAlphanum || c == '_'

/-- Modelled from the spec: case folding applied to both pattern and input
characters when `caseSensitive` is false; identity when it is true. -/
def foldChar (caseSensitive : Bool) (c : Char) : Char :=
  if caseSensitive then c else c.toLower

/-- Modelled from the spec: pattern `pat` occurs (up to case folding) in
`text` at character offset `i`. -/
def matchesAt (cs : Bool) (text pat : List Char) (i : Nat) : Bool :=
  decide (i + pat.length ≤ text.length) &&
  ((text.drop i).take pat.length).map (foldChar cs) == pat.map (foldChar cs)

/-- Modelled from the spec: the character just before offset `i` is absent
(text start) or a non-word character. -/
def boundaryBefore (text : List Char) (i : Nat) : Bool :=
  i == 0 || !(isWordChar (text.getD (i - 1) ' '))

/-- Modelled from the spec: the character at offset `e` (just after a match
ending at `e`) is absent (text end) or a non-word character. -/
def boundaryAfter (text : List Char) (e : Nat) : Bool :=
  e == text.length || !(isWordChar (text.getD e ' '))

/-- Modelled from the spec: a valid occurrence of pattern `pat` at offset
`i` — the pattern is non-empty, occurs there up to folding, and both sides
are word boundaries. -/
def validAt (cs : Bool) (text pat : List Char) (i : Nat) : Bool :=
  !pat.isEmpty && matchesAt cs text pat i &&
  boundaryBefore text i && boundaryAfter text (i + pat.length)

/-- Lengths of the patterns with a valid occurrence at offset `i`. -/
def matchLensAt (cs : Bool) (pats : List (List Char)) (text : List Char)
    (i : Nat) : List Nat :=
  (pats.filter (fun p => validAt cs text p i)).map List.length

/-- Modelled from the spec: length of the longest valid match starting at
`i` (`0` when no pattern has a valid occurrence there). -/
def bestLenAt (cs : Bool) (pats : List (List Char)) (text : List Char)
    (i : Nat) : Nat :=
  (matchLensAt cs pats text i).foldl Nat.max 0

/-- Modelled from the spec: the scan pass.  For each start offset the
longest valid match (if any) is reported as a half-open span `(start, stop)`
into the original, unfolded text; shorter valid matches at the same start
are thereby suppressed, and starts are visited in ascending order. -/
def scan (cs : Bool) (pats : List (List Char)) (text : List Char) :
    List (Nat × Nat) :=
  (List.range text.length).filterMap (fun i =>
    if bestLenAt cs pats text i = 0 then none
    else some (i, i + bestLenAt cs pats text i))

/-! ### Data model of the recognizer (from recognizer.py) -/

/-- Errors surfaced during construction, named as in the specification.
`configurationError` is the Python `ValueError` raised for an empty
`patterns_files` list; `sourceNotFound` is the Python `FileNotFoundError`
for a missing file; `columnNotFound` is the Python `ValueError` raised by
`_load_csv`, carrying the requested column and the available columns that
the Python message reports. -/
inductive BuildError where
  | configurationError
  | sourceNotFound
  | columnNotFound (requested : Str) (available : List Str)
  deriving DecidableEq, Repr

instance {ε α : Type} [DecidableEq ε] [DecidableEq α] :
    DecidableEq (Except ε α) := fun a b =>
  match a, b with
  | .error x, .error y =>
    decidable_of_iff (x = y) ⟨fun h => h ▸ rfl, fun h => by injection h⟩
  | .error _, .ok _ => isFalse (fun h => by injection h)
  | .ok _, .error _ => isFalse (fun h => by injection h)
  | .ok x, .ok y =>
    decidable_of_iff (x = y) ⟨fun h => h ▸ rfl, fun h => by injection h⟩

/-- A match span as produced by `PatternFileRecognizer.analyze`
(`RecognizerResult(entity_type=…, start=…, end=…, score=1.0)`); the score is
the constant `1`. -/
structure RecognizerResult where
  entity_type : String
  start : Nat
  stop : Nat
  score : Nat
  deriving DecidableEq, Repr

/-- The built recognizer: entity-type label, case-sensitivity flag, and the
final filtered pattern list handed to the keyword processor
(`add_keywords_from_list(filtered_patterns)`). -/
structure Recognizer where
  entity_type : String
  csv_column : Str
  case_sensitive : Bool
  patterns : List Str
  deriving DecidableEq, Repr

/-- The file system as an environment: a path either does not exist
(`none`) or holds its list of raw lines, which the loader parses according
to the path's suffix. -/
def FileSystem : Type := String → Option (List Str)

/-- A source reference as in the Python
`FileSpec = Union[str, Tuple[str, str]]`: a bare path (whose column, for
tabular files, is the recognizer's `csv_column`) or a `(path, column)` pair
overriding the column per source. -/
inductive FileSpec where
  | path (p : String)
  | pathColumn (p : String) (column : Str)
  deriving DecidableEq, Repr

/-! ### Pattern loading (from recognizer.py `_load_txt`, `_load_csv`,
`_load_file`, `_load_patterns`, `_load_allowlist`) -/

/-- `_load_txt`: strip each line, keep those that are non-empty and do not
start with `#`. -/
def load_txt (lines : List Str) : List Str :=
  (lines.map trim).filter (fun l => !l.isEmpty && !startsWithHash l)

/-- The final component of a path (`Path(p).name`). -/
def pathName (p : Str) : Str :=
  (p.reverse.takeWhile (fun c => !(c == '/'))).reverse

/-- `Path(p).suffix`: the final component's extension — its part from the
last dot on, provided that dot is neither the component's first nor its last
character; empty otherwise (so a hidden file named `.csv` has no suffix). -/
def pathSuffix (p : Str) : Str :=
  let name := pathName p
  let afterLen := (name.reverse.takeWhile (fun c => !(c == '.'))).length
  let i := name.length - afterLen - 1
  if afterLen == name.length then []
  else if 0 < i ∧ i < name.length - 1 then name.drop i else []

/-- The dispatch `path.suffix.lower() == ".csv"` deciding whether a source
is parsed as tabular (recognizer.py line 71). -/
def isCsvFile (p : String) : Bool := lowerStr (pathSuffix p.data) == ".csv".data

/-- One record as parsed by `csv.reader` for quote-free content: a blank
line is the empty row, any other line its comma-separated fields.  (The csv
module's quoting is not modelled; no input in this development quotes
fields.) -/
def splitRow (l : Str) : List Str :=
  if l.isEmpty then [] else l.splitOn ','

/-- `row[column]` for a `csv.DictReader` row: the row dict is
`dict(zip(fieldnames, row))`, so with duplicate column names the last zipped
binding wins, and a row shorter than the header lacks the trailing keys
(Python `None`, modelled as `none`). -/
def rowLookup (fields row : List Str) (column : Str) : Option Str :=
  (((fields.zip row).filter (fun fv => fv.1 == column)).getLast?).map
    (fun fv => fv.2)

/-- `_load_csv`: the first record is the header; fail with the Python
`ValueError` (`ColumnNotFound`, carrying the requested column and the
available columns) when the file is empty or the header lacks the requested
column, before reading any data row; otherwise collect each subsequent row's
stripped value of that column, skipping absent, empty, or whitespace-only
values. -/
def load_csv (lines : List Str) (column : Str) :
    Except BuildError (List Str) :=
  match lines with
  | [] => .error (.columnNotFound column [])
  | header :: rows =>
    let fields := splitRow header
    if fields.contains column then
      .ok (rows.filterMap (fun r =>
        match rowLookup fields (splitRow r) column with
        | none => none
        | some v =>
          if !v.isEmpty && !(trim v).isEmpty then some (trim v) else none))
    else .error (.columnNotFound column fields)

/-- `_load_file`: resolve the path and column (a tuple spec overrides the
recognizer's `csv_column`), fail with `FileNotFoundError` when the path does
not exist, then dispatch on the `.csv` suffix between tabular and
line-oriented loading. -/
def load_file (fs : FileSystem) (csv_column : Str) (spec : FileSpec) :
    Except BuildError (List Str) :=
  let (path, column) :=
    match spec with
    | .path p => (p, csv_column)
    | .pathColumn p c => (p, c)
  match fs path with
  | none => .error .sourceNotFound
  | some lines =>
    if isCsvFile path then load_csv lines column
    else .ok (load_txt lines)

/-- Sequential loading of several files, concatenating their entries in
order (the `patterns.extend(self._load_file(file_spec))` loop). -/
def load_files (fs : FileSystem) (csv_column : Str) :
    List FileSpec → Except BuildError (List Str)
  | [] => .ok []
  | f :: rest => do
    let xs ← load_file fs csv_column f
    let ys ← load_files fs csv_column rest
    .ok (xs ++ ys)

/-- Worker for `dedupFirst`: keep each string not seen before, tracking the
set of strings already emitted. -/
def dedupFirstGo (seen : List Str) : List Str → List Str
  | [] => []
  | x :: xs =>
    if seen.contains x then dedupFirstGo seen xs
    else x :: dedupFirstGo (x :: seen) xs

/-- `dict.fromkeys` deduplication: remove duplicates by exact string
equality, keeping the first occurrence of each string. -/
def dedupFirst (l : List Str) : List Str := dedupFirstGo [] l

/-- Offset of the first occurrence of `y` in `l` (used to state that
deduplication preserves first-seen order). -/
def firstIdx : List Str → Str → Nat
  | [], _ => 0
  | x :: xs, y => if x == y then 0 else firstIdx xs y + 1

/-- `_load_patterns`: concatenate all sources' entries, then deduplicate
exactly, keeping first occurrences. -/
def load_patterns (fs : FileSystem) (csv_column : Str) (files : List FileSpec) :
    Except BuildError (List Str) :=
  (load_files fs csv_column files).map dedupFirst

/-- `_load_allowlist`: in Python the entries are collected into a `set`; the
construction only ever observes membership in it, so the concatenated list
is a faithful model. -/
def load_allowlist (fs : FileSystem) (csv_column : Str) (files : List FileSpec) :
    Except BuildError (List Str) :=
  load_files fs csv_column files

/-- The comparison key used by allowlist filtering: the raw string in
case-sensitive mode, its lowercased form otherwise. -/
def compareKey (cs : Bool) (s : Str) : Str :=
  if cs then s else lowerStr s

/-- The allowlist filter from `__init__` (lines 37–43): in case-sensitive
mode keep patterns not in the allowlist; otherwise compare lowercased
forms. -/
def filter_allowlist (cs : Bool) (patterns allowlist : List Str) :
    List Str :=
  if cs then
    patterns.filter (fun p => !(allowlist.contains p))
  else
    patterns.filter (fun p => !((allowlist.map lowerStr).contains (lowerStr p)))

/-- `PatternFileRecognizer.__init__`: reject an empty `patterns_files` list,
then load the allowlist, load and deduplicate the patterns, filter by the
allowlist, and build the recognizer holding the final pattern list.  The
Python defaults are `allowlist_files = []`, `csv_column = "name"`,
`case_sensitive = False`; callers pass them explicitly here. -/
def build (fs : FileSystem) (patterns_files : List FileSpec)
    (entity_type : String) (allowlist_files : List FileSpec)
    (csv_column : Str) (case_sensitive : Bool) :
    Except BuildError Recognizer :=
  if patterns_files.isEmpty then .error .configurationError
  else do
    let allowlist ← load_allowlist fs csv_column allowlist_files
    let patterns ← load_patterns fs csv_column patterns_files
    let filtered := filter_allowlist case_sensitive patterns allowlist
    .ok { entity_type := entity_type, csv_column := csv_column,
          case_sensitive := case_sensitive, patterns := filtered }

/-- `PatternFileRecognizer.analyze`: run the scanner on the text and wrap
every span in a `RecognizerResult` with the configured entity type and score
`1`.  The `entities` and `nlp_artifacts` arguments are accepted (as in the
Python signature) but never used. -/
def analyze {α : Type} (r : Recognizer) (text : Str)
    (entities : List String) (nlp_artifacts : α) : List RecognizerResult :=
  (scan r.case_sensitive r.patterns text).map
    (fun m => { entity_type := r.entity_type, start := m.1, stop := m.2,
                score := 1 })

/-! ### Concrete file systems for examples -/

/-- A file system holding a patterns file with the single entry `Apple` and
an allowlist file with the single entry `apple`. -/
def fsApple : FileSystem := fun p =>
  if p == "patterns.txt" then some ["Apple".data]
  else if p == "allow.txt" then some ["apple".data] else none

/-- A file system holding a patterns file with `Apple` (twice) and `Orange`,
and an allowlist file with `apple`. -/
def fsApples : FileSystem := fun p =>
  if p == "patterns.txt" then some ["Apple".data, "Apple".data, "Orange".data]
  else if p == "allow.txt" then some ["apple".data] else none

/-- A file system with a tabular source whose header lacks the default
column (mirrors `test_csv_missing_column_raises_error`). -/
def fsCsvCols : FileSystem := fun p =>
  if p == "data.csv" then some ["col_a,col_b".data, "value1,value2".data]
  else none

/-- A file system with a tabular customer source (mirrors
`test_csv_file_loading` and `test_csv_file_with_tuple_column_override`). -/
def fsCustomers : FileSystem := fun p =>
  if p == "customers.csv" then
    some ["name,description".data, "CustomerA,First customer".data,
          "CustomerB,Second customer".data]
  else none

/-! ### Helper lemmas: folds, valid occurrences, the scan pass -/

theorem foldl_max_eq_init_or_mem (l : List Nat) :
    ∀ a : Nat, l.foldl Nat.max a = a ∨ l.foldl Nat.max a ∈ l := by
  induction l with
  | nil => exact fun a => Or.inl rfl
  | cons x xs ih =>
    intro a
    rw [List.foldl_cons]
    rcases ih (Nat.max a x) with h | h
    · rcases Nat.le_total a x with hax | hxa
      · right
        have hx : Nat.max a x = x := Nat.max_eq_right hax
        rw [h, hx]
        exact List.mem_cons_self _ _
      · left
        have hx : Nat.max a x = a := Nat.max_eq_left hxa
        rw [h, hx]
    · exact Or.inr (List.mem_cons_of_mem _ h)

theorem init_le_foldl_max (l : List Nat) : ∀ a : Nat, a ≤ l.foldl Nat.max a := by
  induction l with
  | nil => exact fun a => Nat.le_refl a
  | cons x xs ih =>
    intro a
    rw [List.foldl_cons]
    exact Nat.le_trans (Nat.le_max_left a x) (ih _)

theorem le_foldl_max (l : List Nat) :
    ∀ (a x : Nat), x ∈ l → x ≤ l.foldl Nat.max a := by
  induction l with
  | nil => intro a x h; cases h
  | cons y ys ih =>
    intro a x h
    rw [List.foldl_cons]
    rcases List.mem_cons.mp h with rfl | h
    · exact Nat.le_trans (Nat.le_max_right a x) (init_le_foldl_max ys _)
    · exact ih _ x h

theorem validAt_decomp {cs : Bool} {text pat : List Char} {i : Nat}
    (h : validAt cs text pat i = true) :
    0 < pat.length ∧ matchesAt cs text pat i = true ∧
    boundaryBefore text i = true ∧ boundaryAfter text (i + pat.length) = true := by
  simp only [validAt, Bool.and_eq_true, Bool.not_eq_true'] at h
  obtain ⟨⟨⟨hne, hm⟩, hb⟩, ha⟩ := h
  refine ⟨?_, hm, hb, ha⟩
  cases pat with
  | nil => simp [List.isEmpty] at hne
  | cons c cs => exact Nat.succ_pos _

theorem matchesAt_le_length {cs : Bool} {text pat : List Char} {i : Nat}
    (h : matchesAt cs text pat i = true) : i + pat.length ≤ text.length := by
  simp only [matchesAt, Bool.and_eq_true, decide_eq_true_eq] at h
  exact h.1

theorem matchesAt_fold_eq {cs : Bool} {text pat : List Char} {i : Nat}
    (h : matchesAt cs text pat i = true) :
    ((text.drop i).take pat.length).map (foldChar cs) = pat.map (foldChar cs) := by
  simp only [matchesAt, Bool.and_eq_true, beq_iff_eq] at h
  exact h.2

theorem bestLenAt_spec {cs : Bool} {pats : List (List Char)} {text : List Char}
    {i : Nat} (h : bestLenAt cs pats text i ≠ 0) :
    ∃ p ∈ pats, validAt cs text p i = true ∧
      p.length = bestLenAt cs pats text i := by
  rcases foldl_max_eq_init_or_mem (matchLensAt cs pats text i) 0 with h0 | hmem
  · exact absurd h0 h
  · simp only [matchLensAt, List.mem_map, List.mem_filter] at hmem
    obtain ⟨p, ⟨hp, hv⟩, hlen⟩ := hmem
    exact ⟨p, hp, hv, hlen⟩

theorem le_bestLenAt {cs : Bool} {pats : List (List Char)} {text : List Char}
    {i : Nat} {p : List Char} (hp : p ∈ pats)
    (hv : validAt cs text p i = true) :
    p.length ≤ bestLenAt cs pats text i := by
  refine le_foldl_max _ 0 _ ?_
  simp only [matchLensAt, List.mem_map, List.mem_filter]
  exact ⟨p, ⟨hp, hv⟩, rfl⟩

theorem mem_scan_iff {cs : Bool} {pats : List (List Char)} {text : List Char}
    {s e : Nat} :
    (s, e) ∈ scan cs pats text ↔
      s < text.length ∧ bestLenAt cs pats text s ≠ 0 ∧
      e = s + bestLenAt cs pats text s := by
  simp only [scan, List.mem_filterMap, List.mem_range]
  constructor
  · rintro ⟨i, hi, hf⟩
    by_cases h0 : bestLenAt cs pats text i = 0
    · rw [if_pos h0] at hf; cases hf
    · rw [if_neg h0] at hf
      obtain ⟨rfl, rfl⟩ := Prod.mk.injEq .. ▸ Option.some.inj hf
      exact ⟨hi, h0, rfl⟩
  · rintro ⟨hs, h0, rfl⟩
    exact ⟨s, hs, by rw [if_neg h0]⟩

theorem reported_of_longest {cs : Bool} {pats : List (List Char)}
    {text : List Char} {p : List Char} {i : Nat} (hp : p ∈ pats)
    (hv : validAt cs text p i = true)
    (hmax : ∀ q ∈ pats, validAt cs text q i = true → q.length ≤ p.length) :
    (i, i + p.length) ∈ scan cs pats text := by
  obtain ⟨hpos, hm, _, _⟩ := validAt_decomp hv
  have hle : p.length ≤ bestLenAt cs pats text i := le_bestLenAt hp hv
  have hne : bestLenAt cs pats text i ≠ 0 :=
    fun h => by rw [h] at hle; exact Nat.lt_irrefl 0 (Nat.lt_of_lt_of_le hpos hle)
  have hge : bestLenAt cs pats text i ≤ p.length := by
    obtain ⟨q, hq, hqv, hqlen⟩ := bestLenAt_spec hne
    exact hqlen ▸ hmax q hq hqv
  have hbest : bestLenAt cs pats text i = p.length := Nat.le_antisymm hge hle
  rw [mem_scan_iff]
  refine ⟨?_, hne, by rw [hbest]⟩
  exact Nat.lt_of_lt_of_le (Nat.lt_add_of_pos_right hpos)
    (matchesAt_le_length hm)

/-! ### Helper lemmas: deduplication -/

theorem mem_dedupFirstGo {y : Str} :
    ∀ (l seen : List Str), y ∈ dedupFirstGo seen l ↔ y ∈ l ∧ y ∉ seen := by
  intro l
  induction l with
  | nil => intro seen; simp [dedupFirstGo]
  | cons x xs ih =>
    intro seen
    by_cases hx : seen.contains x
    · rw [dedupFirstGo, if_pos hx, ih]
      have hxs : x ∈ seen := by
        simpa using hx
      constructor
      · exact fun ⟨h1, h2⟩ => ⟨List.mem_cons_of_mem _ h1, h2⟩
      · rintro ⟨h1, h2⟩
        rcases List.mem_cons.mp h1 with rfl | h1
        · exact absurd hxs h2
        · exact ⟨h1, h2⟩
    · rw [dedupFirstGo, if_neg hx]
      have hxs : x ∉ seen := by
        simpa using hx
      constructor
      · intro h
        rcases List.mem_cons.mp h with rfl | h
        · exact ⟨List.mem_cons_self _ _, hxs⟩
        · obtain ⟨h1, h2⟩ := (ih _).mp h
          exact ⟨List.mem_cons_of_mem _ h1,
            fun hc => h2 (List.mem_cons_of_mem _ hc)⟩
      · rintro ⟨h1, h2⟩
        rcases List.mem_cons.mp h1 with rfl | h1
        · exact List.mem_cons_self _ _
        · by_cases hyx : y = x
          · subst hyx; exact List.mem_cons_self _ _
          · refine List.mem_cons_of_mem _ ((ih _).mpr ⟨h1, ?_⟩)
            intro hc
            rcases List.mem_cons.mp hc with h | h
            · exact hyx h
            · exact h2 h

theorem dedupFirstGo_nodup : ∀ (l seen : List Str), (dedupFirstGo seen l).Nodup := by
  intro l
  induction l with
  | nil => intro seen; exact List.nodup_nil
  | cons x xs ih =>
    intro seen
    by_cases hx : seen.contains x
    · rw [dedupFirstGo, if_pos hx]; exact ih seen
    · rw [dedupFirstGo, if_neg hx]
      refine List.Nodup.cons ?_ (ih _)
      intro hc
      exact ((mem_dedupFirstGo _ _).mp hc).2 (List.mem_cons_self _ _)

theorem dedupFirstGo_sublist : ∀ (l seen : List Str), List.Sublist (dedupFirstGo seen l) l := by
  intro l
  induction l with
  | nil => intro seen; exact List.Sublist.refl []
  | cons x xs ih =>
    intro seen
    by_cases hx : seen.contains x
    · rw [dedupFirstGo, if_pos hx]
      exact (ih seen).trans (List.sublist_cons_self x xs)
    · rw [dedupFirstGo, if_neg hx]
      exact (ih (x :: seen)).cons₂ x

theorem firstIdx_cons_ne {x y : Str} (xs : List Str) (h : x ≠ y) :
    firstIdx (x :: xs) y = firstIdx xs y + 1 := by
  rw [firstIdx, if_neg (by simpa using h)]

theorem firstIdx_cons_self (x : Str) (xs : List Str) :
    firstIdx (x :: xs) x = 0 := by
  rw [firstIdx, if_pos (by simp)]

theorem dedupFirstGo_pairwise_firstIdx :
    ∀ (l seen : List Str),
      (dedupFirstGo seen l).Pairwise (fun a b => firstIdx l a < firstIdx l b) := by
  intro l
  induction l with
  | nil => intro seen; exact List.Pairwise.nil
  | cons x xs ih =>
    intro seen
    by_cases hx : seen.contains x
    · rw [dedupFirstGo, if_pos hx]
      have hxs : x ∈ seen := by simpa using hx
      refine (ih seen).imp_of_mem ?_
      intro a b ha hb hr
      have ha' := (mem_dedupFirstGo _ _).mp ha
      have hb' := (mem_dedupFirstGo _ _).mp hb
      have hax : x ≠ a := fun h => ha'.2 (h ▸ hxs)
      have hbx : x ≠ b := fun h => hb'.2 (h ▸ hxs)
      rw [firstIdx_cons_ne _ hax, firstIdx_cons_ne _ hbx]
      omega
    · rw [dedupFirstGo, if_neg hx]
      refine List.Pairwise.cons ?_ ?_
      · intro y hy
        have hy' := (mem_dedupFirstGo _ _).mp hy
        have hyx : x ≠ y := fun h => hy'.2 (h ▸ List.mem_cons_self x seen)
        rw [firstIdx_cons_self, firstIdx_cons_ne _ hyx]
        omega
      · refine (ih (x :: seen)).imp_of_mem ?_
        intro a b ha hb hr
        have ha' := (mem_dedupFirstGo _ _).mp ha
        have hb' := (mem_dedupFirstGo _ _).mp hb
        have hax : x ≠ a := fun h => ha'.2 (h ▸ List.mem_cons_self x seen)
        have hbx : x ≠ b := fun h => hb'.2 (h ▸ List.mem_cons_self x seen)
        rw [firstIdx_cons_ne _ hax, firstIdx_cons_ne _ hbx]
        omega

theorem mem_dedupFirst {y : Str} {l : List Str} : y ∈ dedupFirst l ↔ y ∈ l := by
  rw [dedupFirst, mem_dedupFirstGo]
  simp

theorem dedupFirst_nodup (l : List Str) : (dedupFirst l).Nodup :=
  dedupFirstGo_nodup l []

theorem dedupFirst_sublist (l : List Str) : List.Sublist (dedupFirst l) l :=
  dedupFirstGo_sublist l []

theorem dedupFirst_pairwise_firstIdx (l : List Str) :
    (dedupFirst l).Pairwise (fun a b => firstIdx l a < firstIdx l b) :=
  dedupFirstGo_pairwise_firstIdx l []

/-! ### Helper lemmas: loading -/

theorem contains_iff_mem {l : List Str} {a : Str} :
    l.contains a = true ↔ a ∈ l :=
  ⟨fun h => List.elem_iff.mp h, fun h => List.elem_iff.mpr h⟩

theorem compareKey_true (s : Str) : compareKey true s = s := rfl

theorem compareKey_false (s : Str) : compareKey false s = lowerStr s := rfl

/-! ### The tabular error and success paths, as exercised by the tests -/

/-- An existing tabular source whose header lacks the requested column makes
construction fail with `ColumnNotFound` carrying the requested name and the
available columns (recognizer.py lines 89–94) — even though the source list
is non-empty and the file exists. -/
theorem build_csv_missing_column :
    build fsCsvCols [.path "data.csv"] "T" [] "name".data false =
      .error (.columnNotFound "name".data ["col_a".data, "col_b".data]) := by
  decide

/-- A tabular source loads the requested column's stripped values, with the
tuple spec's column overriding the recognizer's default (recognizer.py
lines 59–64 and 85–99). -/
theorem build_csv_column_override :
    build fsCustomers [.pathColumn "customers.csv" "name".data] "C" []
        "missing".data false =
      .ok { entity_type := "C", csv_column := "missing".data,
            case_sensitive := false,
            patterns := ["CustomerA".data, "CustomerB".data] } := by
  decide

/-! ## The claims -/

/-- Claim C1: a pattern occurrence is reported only where the character
immediately before its start and the character immediately after its end are
each absent (text edge) or non-word; in particular with pattern `Cat`,
scanning `Category` yields zero matches and scanning `(Cat)` yields exactly
one match. -/
theorem C1_word_boundaries :
    (∀ (cs : Bool) (pats : List (List Char)) (text : List Char) (s e : Nat),
        (s, e) ∈ scan cs pats text →
        (s = 0 ∨ isWordChar (text.getD (s - 1) ' ') = false) ∧
        (e = text.length ∨ isWordChar (text.getD e ' ') = false)) ∧
    scan false ["Cat".data] "Category".data = [] ∧
    scan false ["Cat".data] "(Cat)".data = [(1, 4)] := by
  refine ⟨?_, by decide, by decide⟩
  intro cs pats text s e hmem
  rw [mem_scan_iff] at hmem
  obtain ⟨hs, h0, rfl⟩ := hmem
  obtain ⟨p, hp, hv, hlen⟩ := bestLenAt_spec h0
  obtain ⟨hpos, hm, hbb, hba⟩ := validAt_decomp hv
  constructor
  · rw [boundaryBefore, Bool.or_eq_true, beq_iff_eq, Bool.not_eq_true'] at hbb
    exact hbb
  · rw [hlen] at hba
    rw [boundaryAfter, Bool.or_eq_true, beq_iff_eq, Bool.not_eq_true'] at hba
    exact hba

theorem C1_word_boundaries_witness :
    (1 = 0 ∨ isWordChar ("(Cat)".data.getD (1 - 1) ' ') = false) ∧
    (4 = "(Cat)".data.length ∨ isWordChar ("(Cat)".data.getD 4 ' ') = false) :=
  C1_word_boundaries.1 false ["Cat".data] "(Cat)".data 1 4 (by decide)

/-- Claim C2: when one pattern is a proper prefix of another and both have a
valid occurrence starting at the same position, only the longest match is
reported and the shorter contained one is suppressed; with patterns
`Customer` and `CustomerA`, scanning `CustomerA` yields exactly one match
spanning the whole text. -/
theorem C2_longest_match_wins :
    (∀ (cs : Bool) (pats : List (List Char)) (text : List Char)
        (p1 p2 : List Char) (i : Nat),
        p1 ∈ pats → p2 ∈ pats → p1 <+: p2 → p1.length < p2.length →
        validAt cs text p1 i = true → validAt cs text p2 i = true →
        (∃ e, (i, e) ∈ scan cs pats text ∧ i + p2.length ≤ e) ∧
        (i, i + p1.length) ∉ scan cs pats text) ∧
    scan false ["Customer".data, "CustomerA".data] "CustomerA".data =
      [(0, 9)] := by
  refine ⟨?_, by decide⟩
  intro cs pats text p1 p2 i hp1 hp2 hpre hlt hv1 hv2
  obtain ⟨hpos2, hm2, _, _⟩ := validAt_decomp hv2
  have hle2 := le_bestLenAt hp2 hv2
  have h0 : bestLenAt cs pats text i ≠ 0 := by omega
  have hi : i < text.length :=
    Nat.lt_of_lt_of_le (Nat.lt_add_of_pos_right hpos2) (matchesAt_le_length hm2)
  constructor
  · exact ⟨i + bestLenAt cs pats text i, mem_scan_iff.mpr ⟨hi, h0, rfl⟩,
      by omega⟩
  · intro hc
    rw [mem_scan_iff] at hc
    omega

theorem C2_longest_match_wins_witness :
    (∃ e, (0, e) ∈ scan false ["A".data, "A B".data] "A B".data ∧
        0 + "A B".data.length ≤ e) ∧
    (0, 0 + "A".data.length) ∉ scan false ["A".data, "A B".data] "A B".data :=
  C2_longest_match_wins.1 false ["A".data, "A B".data] "A B".data
    "A".data "A B".data 0 (by decide) (by decide) (by decide) (by decide)
    (by decide) (by decide)

/-- Claim C3 counterexample: with patterns `a b`, `b c` and `b c d`, in the
text `a b c d` the distinct patterns `a b` and `b c` each have a valid
word-bounded occurrence, their spans `[0, 3)` and `[2, 5)` overlap, their
starts differ — yet the scan reports the occurrence of `a b` and not that of
`b c` (which is superseded by the longer `b c d` at the same start), so the
claim that both are reported is false. -/
theorem C3_overlap_counterexample :
    "a b".data ≠ "b c".data ∧
    validAt false "a b c d".data "a b".data 0 = true ∧
    validAt false "a b c d".data "b c".data 2 = true ∧
    (0 : Nat) ≠ 2 ∧ 2 < 0 + "a b".data.length ∧
    (0, 0 + "a b".data.length) ∈
      scan false ["a b".data, "b c".data, "b c d".data] "a b c d".data ∧
    (2, 2 + "b c".data.length) ∉
      scan false ["a b".data, "b c".data, "b c d".data] "a b c d".data := by
  decide

/-- Claim C3 (amended): whenever two distinct patterns each have a valid
(word-bounded) occurrence, the start offsets differ, and each occurrence is
moreover the longest valid occurrence at its own start position, the scan
reports both matches — even when their spans overlap. -/
theorem C3_overlapping_longest_both_reported :
    ∀ (cs : Bool) (pats : List (List Char)) (text : List Char)
      (p1 p2 : List Char) (s1 s2 : Nat),
      p1 ∈ pats → p2 ∈ pats → s1 ≠ s2 →
      validAt cs text p1 s1 = true → validAt cs text p2 s2 = true →
      (∀ q ∈ pats, validAt cs text q s1 = true → q.length ≤ p1.length) →
      (∀ q ∈ pats, validAt cs text q s2 = true → q.length ≤ p2.length) →
      (s1, s1 + p1.length) ∈ scan cs pats text ∧
      (s2, s2 + p2.length) ∈ scan cs pats text := by
  intro cs pats text p1 p2 s1 s2 hp1 hp2 hne hv1 hv2 hm1 hm2
  exact ⟨reported_of_longest hp1 hv1 hm1, reported_of_longest hp2 hv2 hm2⟩

theorem C3_overlapping_longest_both_reported_witness :
    (0, 0 + "a b".data.length) ∈
      scan false ["a b".data, "b c".data, "b c d".data] "a b c d".data ∧
    (2, 2 + "b c d".data.length) ∈
      scan false ["a b".data, "b c".data, "b c d".data] "a b c d".data :=
  C3_overlapping_longest_both_reported false
    ["a b".data, "b c".data, "b c d".data] "a b c d".data
    "a b".data "b c d".data 0 2 (by decide) (by decide) (by decide)
    (by decide) (by decide) (by decide) (by decide)

/-- Claim C4 counterexample: with the pattern file holding `Apple` and the
allowlist file holding `apple` in the case-insensitive default, every loaded
pattern is removed by allowlist filtering, yet construction succeeds and
returns a scanner with an empty final pattern set instead of raising
`ConfigurationError`. -/
theorem C4_empty_final_set_counterexample :
    load_patterns fsApple "name".data [.path "patterns.txt"] =
      .ok ["Apple".data] ∧
    filter_allowlist false ["Apple".data] ["apple".data] = [] ∧
    build fsApple [.path "patterns.txt"] "T" [.path "allow.txt"]
        "name".data false =
      .ok { entity_type := "T", csv_column := "name".data,
            case_sensitive := false, patterns := [] } := by
  exact ⟨by decide, by decide, by decide⟩

/-- Claim C4 (amended): scanner construction succeeds even when the final
pattern set is empty after deduplication and allowlist filtering — for every
input where the pattern-source list is non-empty, loading succeeds, and every
loaded pattern is removed by the allowlist, `build` returns a scanner whose
pattern set is empty rather than raising. -/
theorem C4_empty_filtered_set_builds_ok :
    ∀ (fs : FileSystem) (pf af : List FileSpec) (et : String) (col : Str)
      (cs : Bool) (al ps : List Str),
      pf ≠ [] →
      load_allowlist fs col af = .ok al →
      load_patterns fs col pf = .ok ps →
      filter_allowlist cs ps al = [] →
      build fs pf et af col cs =
        .ok { entity_type := et, csv_column := col, case_sensitive := cs,
              patterns := [] } := by
  intro fs pf af et col cs al ps hpf hal hps hfilt
  have hempty : pf.isEmpty = false := by
    cases pf
    · exact absurd rfl hpf
    · rfl
  have hok : build fs pf et af col cs =
      .ok { entity_type := et, csv_column := col, case_sensitive := cs,
            patterns := filter_allowlist cs ps al } := by
    unfold build
    rw [hempty]
    simp only [Bool.false_eq_true, if_false, hal, hps]
    rfl
  rw [hok, hfilt]

theorem C4_empty_filtered_set_builds_ok_witness :
    build fsApple [.path "patterns.txt"] "T" [.path "allow.txt"]
        "name".data false =
      .ok { entity_type := "T", csv_column := "name".data,
            case_sensitive := false, patterns := [] } :=
  C4_empty_filtered_set_builds_ok fsApple [.path "patterns.txt"]
    [.path "allow.txt"] "T" "name".data false ["apple".data] ["Apple".data]
    (by decide) (by decide) (by decide) (by decide)

/-- Claim C5: in case-sensitive mode `TestPattern` does not match
`testpattern`; in case-insensitive mode it matches once; and in general
every reported span references offsets of the original, unfolded text — the
span lies inside the text and the original characters under the span fold to
the folded pattern. -/
theorem C5_case_sensitivity :
    scan true ["TestPattern".data] "testpattern".data = [] ∧
    scan false ["TestPattern".data] "testpattern".data = [(0, 11)] ∧
    (∀ (cs : Bool) (pats : List (List Char)) (text : List Char) (s e : Nat),
        (s, e) ∈ scan cs pats text →
        s < e ∧ e ≤ text.length ∧
        ∃ p ∈ pats, p.length = e - s ∧
          ((text.drop s).take (e - s)).map (foldChar cs) =
            p.map (foldChar cs)) := by
  refine ⟨by decide, by decide, ?_⟩
  intro cs pats text s e hmem
  rw [mem_scan_iff] at hmem
  obtain ⟨hs, h0, rfl⟩ := hmem
  obtain ⟨p, hp, hv, hlen⟩ := bestLenAt_spec h0
  obtain ⟨hpos, hm, _, _⟩ := validAt_decomp hv
  have hle := matchesAt_le_length hm
  have heq : s + bestLenAt cs pats text s - s = bestLenAt cs pats text s := by
    omega
  refine ⟨by omega, by omega, p, hp, by omega, ?_⟩
  rw [heq, ← hlen]
  exact matchesAt_fold_eq hm

theorem C5_case_sensitivity_witness :
    0 < 11 ∧ 11 ≤ "testpattern".data.length ∧
    ∃ p ∈ [("TestPattern".data : List Char)], p.length = 11 - 0 ∧
      (("testpattern".data.drop 0).take (11 - 0)).map (foldChar false) =
        p.map (foldChar false) :=
  C5_case_sensitivity.2.2 false ["TestPattern".data] "testpattern".data 0 11
    (by decide)

/-- Claim C6: for a fixed scanner and fixed text every scan returns the
identical sequence (the model is a pure function of its inputs), and that
sequence is ordered by ascending start offset with ties broken by ascending
end offset. -/
theorem C6_deterministic_sorted :
    ∀ (cs : Bool) (pats : List (List Char)) (text : List Char),
      scan cs pats text = scan cs pats text ∧
      (scan cs pats text).Pairwise
        (fun m1 m2 => m1.1 < m2.1 ∨ (m1.1 = m2.1 ∧ m1.2 < m2.2)) := by
  intro cs pats text
  refine ⟨rfl, ?_⟩
  rw [scan, List.pairwise_filterMap]
  refine (List.pairwise_lt_range _).imp ?_
  intro a b hab x hx y hy
  by_cases h0 : bestLenAt cs pats text a = 0
  · rw [if_pos h0] at hx
    cases hx
  · rw [if_neg h0] at hx
    by_cases h1 : bestLenAt cs pats text b = 0
    · rw [if_pos h1] at hy
      cases hy
    · rw [if_neg h1] at hy
      rw [Option.mem_def, Option.some.injEq] at hx hy
      rw [← hx, ← hy]
      exact Or.inl hab

/-- Claim C7: pattern loading concatenates the trimmed entries of all
sources in order and removes duplicates by exact string equality, keeping
the first occurrence across all sources combined: the result is
duplicate-free, a subsequence of the concatenation with exactly its
members, ordered by first occurrence; each entry is a trimmed, non-empty,
non-comment line.  Deduplication is exact regardless of case sensitivity:
`Apple` and `apple` both survive. -/
theorem C7_dedup_exact_first_seen :
    (∀ (fs : FileSystem) (col : Str) (files : List FileSpec)
        (allEntries : List Str),
        load_files fs col files = .ok allEntries →
        load_patterns fs col files = .ok (dedupFirst allEntries)) ∧
    (∀ l : List Str, (dedupFirst l).Nodup) ∧
    (∀ l : List Str, List.Sublist (dedupFirst l) l) ∧
    (∀ (l : List Str) (y : Str), y ∈ dedupFirst l ↔ y ∈ l) ∧
    (∀ l : List Str,
        (dedupFirst l).Pairwise (fun a b => firstIdx l a < firstIdx l b)) ∧
    (∀ (lines : List Str) (x : Str), x ∈ load_txt lines →
        (∃ lraw ∈ lines, x = trim lraw) ∧ x.isEmpty = false ∧
        startsWithHash x = false) ∧
    dedupFirst ["Apple".data, "apple".data, "Apple".data] =
      ["Apple".data, "apple".data] := by
  refine ⟨?_, dedupFirst_nodup, dedupFirst_sublist,
    fun l y => mem_dedupFirst, dedupFirst_pairwise_firstIdx, ?_, by decide⟩
  · intro fs col files allEntries h
    rw [load_patterns, h]
    rfl
  · intro lines x hx
    simp only [load_txt, List.mem_filter, List.mem_map, Bool.and_eq_true,
      Bool.not_eq_true'] at hx
    obtain ⟨⟨lraw, hlraw, rfl⟩, hcond⟩ := hx
    exact ⟨⟨lraw, hlraw, rfl⟩, hcond.1, hcond.2⟩

theorem C7_dedup_exact_first_seen_witness :
    load_patterns fsApples "name".data [.path "patterns.txt"] =
      .ok (dedupFirst ["Apple".data, "Apple".data, "Orange".data]) ∧
    ((∃ lraw ∈ ["Apple".data, "Apple".data, "Orange".data],
        ("Apple".data : Str) = trim lraw) ∧
      ("Apple".data : Str).isEmpty = false ∧
      startsWithHash "Apple".data = false) :=
  ⟨C7_dedup_exact_first_seen.1 fsApples "name".data [.path "patterns.txt"]
      ["Apple".data, "Apple".data, "Orange".data] (by decide),
   C7_dedup_exact_first_seen.2.2.2.2.2.1
      ["Apple".data, "Apple".data, "Orange".data] "Apple".data (by decide)⟩

/-- Claim C8: allowlist filtering removes exactly those patterns whose
comparison key (the raw string in case-sensitive mode, the lowercased form
otherwise) equals the comparison key of some allowlist entry, and survivors
keep their relative order; concretely, patterns `Apple`, `Apple`, `Orange`
with allowlist `apple` under the case-insensitive default build to the final
pattern set `[Orange]`. -/
theorem C8_allowlist_filtering :
    (∀ (cs : Bool) (patterns allowlist : List Str),
        List.Sublist (filter_allowlist cs patterns allowlist) patterns) ∧
    (∀ (cs : Bool) (patterns allowlist : List Str) (p : Str),
        p ∈ filter_allowlist cs patterns allowlist ↔
          p ∈ patterns ∧ ∀ a ∈ allowlist, compareKey cs p ≠ compareKey cs a) ∧
    build fsApples [.path "patterns.txt"] "T" [.path "allow.txt"]
        "name".data false =
      .ok { entity_type := "T", csv_column := "name".data,
            case_sensitive := false, patterns := ["Orange".data] } := by
  refine ⟨?_, ?_, by decide⟩
  · intro cs pats al
    cases cs
    · rw [filter_allowlist, if_neg (by simp)]
      exact List.filter_sublist _
    · rw [filter_allowlist, if_pos rfl]
      exact List.filter_sublist _
  · intro cs pats al p
    cases cs
    · rw [filter_allowlist, if_neg (by simp), List.mem_filter]
      simp only [compareKey_false, Bool.not_eq_true']
      constructor
      · rintro ⟨hp, hc⟩
        refine ⟨hp, ?_⟩
        intro a ha heq
        have hmm : lowerStr p ∈ al.map lowerStr :=
          List.mem_map.mpr ⟨a, ha, heq.symm⟩
        rw [contains_iff_mem.mpr hmm] at hc
        cases hc
      · rintro ⟨hp, hkeys⟩
        refine ⟨hp, ?_⟩
        by_cases hc : (al.map lowerStr).contains (lowerStr p) = true
        · obtain ⟨a, ha, hla⟩ := List.mem_map.mp (contains_iff_mem.mp hc)
          exact absurd hla.symm (hkeys a ha)
        · cases h : (al.map lowerStr).contains (lowerStr p)
          · rfl
          · exact absurd h hc
    · rw [filter_allowlist, if_pos rfl, List.mem_filter]
      simp only [compareKey_true, Bool.not_eq_true']
      constructor
      · rintro ⟨hp, hc⟩
        refine ⟨hp, ?_⟩
        intro a ha heq
        subst heq
        rw [contains_iff_mem.mpr ha] at hc
        cases hc
      · rintro ⟨hp, hkeys⟩
        refine ⟨hp, ?_⟩
        by_cases hc : al.contains p = true
        · exact absurd rfl (hkeys p (contains_iff_mem.mp hc))
        · cases h : al.contains p
          · rfl
          · exact absurd h hc

/-- Claim C9: building with an empty pattern-source list fails with
`ConfigurationError` for every file system whatsoever — the check precedes
any file access, so no property of the file system (including every file
being absent) can influence the outcome. -/
theorem C9_empty_sources_configuration_error :
    ∀ (fs : FileSystem) (et : String) (af : List FileSpec) (col : Str)
      (cs : Bool),
      build fs [] et af col cs = .error .configurationError := by
  intro fs et af col cs
  rfl

/-- Claim C10: `analyze` is independent of the `entities` argument (and of
`nlp_artifacts`): any two calls on the same recognizer and text return
identical result lists. -/
theorem C10_analyze_ignores_entities :
    ∀ {α β : Type} (r : Recognizer) (text : Str) (e1 e2 : List String)
      (n1 : α) (n2 : β),
      analyze r text e1 n1 = analyze r text e2 n2 := by
  intro α β r text e1 e2 n1 n2
  rfl

end PatternFileRecognizer
